import Mathlib

/-!
Verification of the period-label resolver in `paginas/nds_realizadas.py`.

Strings are modelled as `List Char` (`Str`), matching Python's sequence of
code points.  Python's Unicode normalization (NFKD + removal of combining
marks) and `str.lower` are modelled character-wise for the Latin-1 accented
letters that occur in the Portuguese data this page processes; characters
outside that range are untouched by the accent stripper and are then removed
by the character filters exactly as in the source.

`pd.to_datetime(val, errors='coerce')` is an external collaborator (a general
date parser); it is modelled as an oracle parameter `p : Value → Option (Nat × Nat)`
returning the (year, month) of the parsed timestamp, `none` standing for `NaT`.
Hypotheses on the oracle in the theorems record documented pandas behaviour
(`pd.Timestamp` years lie between 1677 and 2262, months between 1 and 12).
-/

/-- Strings as lists of code points. -/
abbrev Str := List Char

/-! ### Character utilities -/

/-- ASCII decimal digit test (`\d` of the source's regexes; the scanned text
is already restricted to ASCII by the normalizations). -/
def isDig (c : Char) : Bool := 48 ≤ c.toNat && c.toNat ≤ 57

/-- Numeric value of a digit character. -/
def dval (c : Char) : Nat := c.toNat - 48

/-- The digit character for `d < 10`. -/
def digitCh (d : Nat) : Char := Char.ofNat (48 + d)

/-- Python `str.lower`, character-wise: ASCII letters and the Latin-1
uppercase accented letters used in the data. -/
def pyLowerChar (c : Char) : Char :=
  if 65 ≤ c.toNat && c.toNat ≤ 90 then Char.ofNat (c.toNat + 32)
  else if 192 ≤ c.toNat && c.toNat ≤ 222 && c.toNat ≠ 215 then Char.ofNat (c.toNat + 32)
  else c

/-- NFKD decomposition followed by removal of combining marks, character-wise
for the Latin-1 accented letters (e.g. `'í' ↦ 'i'`, `'ç' ↦ 'c'`, `'Á' ↦ 'A'`). -/
def stripAcc (c : Char) : Char :=
  match c with
  | 'á' => 'a' | 'à' => 'a' | 'â' => 'a' | 'ã' => 'a' | 'ä' => 'a'
  | 'é' => 'e' | 'è' => 'e' | 'ê' => 'e' | 'ë' => 'e'
  | 'í' => 'i' | 'ì' => 'i' | 'î' => 'i' | 'ï' => 'i'
  | 'ó' => 'o' | 'ò' => 'o' | 'ô' => 'o' | 'õ' => 'o' | 'ö' => 'o'
  | 'ú' => 'u' | 'ù' => 'u' | 'û' => 'u' | 'ü' => 'u'
  | 'ç' => 'c' | 'ñ' => 'n'
  | 'Á' => 'A' | 'À' => 'A' | 'Â' => 'A' | 'Ã' => 'A' | 'Ä' => 'A'
  | 'É' => 'E' | 'È' => 'E' | 'Ê' => 'E' | 'Ë' => 'E'
  | 'Í' => 'I' | 'Ì' => 'I' | 'Î' => 'I' | 'Ï' => 'I'
  | 'Ó' => 'O' | 'Ò' => 'O' | 'Ô' => 'O' | 'Õ' => 'O' | 'Ö' => 'O'
  | 'Ú' => 'U' | 'Ù' => 'U' | 'Û' => 'U' | 'Ü' => 'U'
  | 'Ç' => 'C' | 'Ñ' => 'N'
  | c => c

/-- Characters kept by `_normalize`'s `re.sub(r'[^a-z0-9]', '', ...)`. -/
def keepAlnum (c : Char) : Bool :=
  (97 ≤ c.toNat && c.toNat ≤ 122) || isDig c

/-- Characters kept by the extractor's `re.sub(r'[^a-z0-9/.\- ]', '', ...)`. -/
def keepExt (c : Char) : Bool :=
  keepAlnum c || c = '/' || c = '.' || c = '-' || c = ' '

/-- Whitespace as removed by Python `str.strip`. -/
def isSpaceCh (c : Char) : Bool :=
  c = ' ' || c = '\t' || c = '\n' || c = '\x0d' || c = '\x0c' || c = '\x0b'

/-- Python `str.strip`. -/
def pyStrip (s : Str) : Str :=
  ((s.dropWhile isSpaceCh).reverse.dropWhile isSpaceCh).reverse

/-! ### String utilities -/

/-- Does the second list start with the first? -/
def startsWithL : Str → Str → Bool
  | [], _ => true
  | _ :: _, [] => false
  | a :: as, b :: bs => a == b && startsWithL as bs

/-- Python's `needle in hay` substring test. -/
def containsSub (needle : Str) : Str → Bool
  | [] => needle.isEmpty
  | c :: t => startsWithL needle (c :: t) || containsSub needle t

/-- Little-endian decimal digits, by structural recursion on a fuel bound so
that the kernel can evaluate it. -/
def digitsRevAux : Nat → Nat → List Nat
  | 0, _ => []
  | fuel + 1, n => if n = 0 then [] else n % 10 :: digitsRevAux fuel (n / 10)

/-- Little-endian decimal digits of `n`. -/
def digitsRev (n : Nat) : List Nat := digitsRevAux n n

/-- Python `str(n)` for a natural number: decimal digits. -/
def pyStrNat (n : Nat) : Str :=
  if n = 0 then ['0'] else ((digitsRev n).map digitCh).reverse

/-- Python `str(n)` for an integer. -/
def intToStr (n : Int) : Str :=
  if n < 0 then '-' :: pyStrNat n.natAbs else pyStrNat n.toNat

/-- Python `s[-2:]`: the last two characters (the whole string if shorter). -/
def lastTwoChars (s : Str) : Str := (s.reverse.take 2).reverse

/-- Python `int(s)` on the digit strings that occur here (`None` when the text
is not a plain digit run; the source wraps the call in `try/except`). -/
def parseNatDigits (s : Str) : Option Nat :=
  if s ≠ [] ∧ s.all isDig then some (s.foldl (fun a c => 10 * a + dval c) 0) else none

/-- Python `lbl.split("/")`. -/
def splitSlashList : Str → List Str
  | [] => [[]]
  | c :: t =>
    if c = '/' then [] :: splitSlashList t
    else
      match splitSlashList t with
      | h :: r => (c :: h) :: r
      | [] => [[c]]

/-- Python string `<=` (code-point lexicographic), as a Boolean. -/
def strLeB : Str → Str → Bool
  | [], _ => true
  | _ :: _, [] => false
  | a :: as, b :: bs =>
    if a.toNat < b.toNat then true
    else if a = b then strLeB as bs
    else false

/-- Python string `<=` as a relation (used to state sortedness of the
lexicographically ordered fallback bucket). -/
def strLE (a b : Str) : Prop := strLeB a b = true

instance : DecidableRel strLE := fun a b =>
  inferInstanceAs (Decidable (strLeB a b = true))

/-! ### The fixed month table `_MESES_PT` -/

/-- `_MESES_PT.get(m, str(m))`: the fixed Portuguese month abbreviation, with
Python's `str(m)` as the default for keys outside the table. -/
def mesesGet (m : Nat) : Str :=
  match m with
  | 1 => "Jan".data | 2 => "Fev".data | 3 => "Mar".data | 4 => "Abr".data
  | 5 => "Mai".data | 6 => "Jun".data | 7 => "Jul".data | 8 => "Ago".data
  | 9 => "Set".data | 10 => "Out".data | 11 => "Nov".data | 12 => "Dez".data
  | _ => pyStrNat m

/-- `_MESES_PT.items()` in insertion order. -/
def mesesList : List (Nat × Str) :=
  [(1, "Jan".data), (2, "Fev".data), (3, "Mar".data), (4, "Abr".data),
   (5, "Mai".data), (6, "Jun".data), (7, "Jul".data), (8, "Ago".data),
   (9, "Set".data), (10, "Out".data), (11, "Nov".data), (12, "Dez".data)]

/-- The f-string `f"{_MESES_PT.get(m, str(m))}/{str(y)[-2:]}"` used by both
branches of `_format_period_from_maybe_date_or_string` and by
`_period_options_ordered_from_series`. -/
def mkLabel (y m : Nat) : Str := mesesGet m ++ '/' :: lastTwoChars (pyStrNat y)

/-- The canonical shape of a produced label: abbreviation, slash, two digit
characters (`k` is the two-digit year value). -/
def canonLabel (k m : Nat) : Str :=
  mesesGet m ++ '/' :: [digitCh (k / 10), digitCh (k % 10)]

/-! ### `_extract_year_month_from_string` -/

/-- `re.search(r'(20\d{2})', _)`: leftmost occurrence of `2`,`0`,digit,digit;
returns the matched number. -/
def find4 : Str → Option Nat
  | a :: b :: c :: d :: rest =>
    if a = '2' ∧ b = '0' ∧ isDig c ∧ isDig d then
      some (2000 + 10 * dval c + dval d)
    else find4 (b :: c :: d :: rest)
  | _ => none

/-- `re.search(r'(\d{2})$', _)`: the last two characters when both are digits. -/
def last2dig (s : Str) : Option Nat :=
  match s.reverse with
  | b :: a :: _ => if isDig a ∧ isDig b then some (10 * dval a + dval b) else none
  | _ => none

/-- The `keywords_map` dict of `_extract_year_month_from_string`, in source
(= iteration) order. -/
def monthKeywords : List (Nat × List Str) :=
  [(1, ["jan".data, "janeiro".data]),
   (2, ["fev".data, "fevereiro".data]),
   (3, ["mar".data, "março".data, "marco".data]),
   (4, ["abr".data, "abril".data]),
   (5, ["mai".data, "maio".data]),
   (6, ["jun".data, "junho".data]),
   (7, ["jul".data, "julho".data]),
   (8, ["ago".data, "agost".data, "agosto".data]),
   (9, ["set".data, "setem".data, "setembro".data, "sep".data,
        "conj".data, "conjun".data, "conjunto".data]),
   (10, ["out".data, "outub".data, "outubro".data]),
   (11, ["nov".data, "novembro".data]),
   (12, ["dez".data, "dezembro".data])]

/-- The double loop over `keywords_map`: first month (in month-number order)
one of whose keywords occurs in the text. -/
def kwScan (l : Str) : Option Nat :=
  (monthKeywords.find? (fun km => km.2.any (fun kw => containsSub kw l))).map (·.1)

/-- Does `(?:\D|$)` accept at this position? -/
def boundaryB : Str → Bool
  | [] => true
  | c :: _ => !(isDig c)

/-- One attempt of `(0?[1-9]|1[0-2])(?:\D|$)` at the head of the list, with
the regex engine's backtracking order. -/
def matchCore (l : Str) : Option Nat :=
  match l with
  | [] => none
  | c1 :: r1 =>
    match r1 with
    | c2 :: r2 =>
      if c1 = '0' ∧ isDig c2 ∧ dval c2 ≠ 0 ∧ boundaryB r2 then
        some (dval c2)
      else if isDig c1 ∧ dval c1 ≠ 0 ∧ isDig c2 = false then
        some (dval c1)
      else if c1 = '1' ∧ isDig c2 ∧ c2.toNat ≤ 50 ∧ boundaryB r2 then
        some (10 + dval c2)
      else none
    | [] => if isDig c1 ∧ dval c1 ≠ 0 then some (dval c1) else none

/-- Search positions after the first: `\D` consumes one non-digit, then the
month group must match. -/
def goSearch : Str → Option Nat
  | [] => none
  | c :: rest =>
    if isDig c then goSearch rest
    else
      match matchCore rest with
      | some m => some m
      | none => goSearch rest

/-- `re.search(r'(?:(?:^|\D)(0?[1-9]|1[0-2])(?:\D|$))', _)`: the numeric-month
fallback. -/
def searchMonth (l : Str) : Option Nat :=
  match matchCore l with
  | some m => some m
  | none => goSearch l

/-- `_extract_year_month_from_string` (the argument is a string by typing; the
`isinstance` guard is the callers' obligation, which both call sites meet). -/
def extractYM (s : Str) : Option Nat × Option Nat :=
  let raw := pyStrip (s.map pyLowerChar)
  if raw = [] then (none, none)
  else
    let rn := (raw.map stripAcc).filter keepExt
    let year : Option Nat :=
      match find4 rn with
      | some y => some y
      | none => (last2dig rn).map (2000 + ·)
    let month : Option Nat :=
      match kwScan rn with
      | some m => some m
      | none => searchMonth rn
    (year, month)

example : extractYM "Conjunto/25".data = (some 2025, some 6) := by decide
example : extractYM "Set/25".data = (some 2025, some 9) := by decide
example : extractYM "2025-09".data = (some 2025, some 9) := by decide
example : extractYM "Set/1999".data = (some 2099, some 9) := by decide
example : extractYM "blah".data = (none, none) := by decide
example : extractYM "Mai/99".data = (some 2099, some 5) := by decide

/-! ### Cell values and `_format_period_from_maybe_date_or_string` -/

/-- A spreadsheet cell value: a constructed datetime, a string, an integer, or
a missing value (`None`/`NaN`). -/
inductive Value where
  | date (y m d : Nat)
  | str (s : Str)
  | num (n : Int)
  | null
deriving DecidableEq

/-- Python `str(v)` of a cell value (`pandas.Timestamp` renders as
`"YYYY-MM-DD HH:MM:SS"`). -/
def pad2 (n : Nat) : Str := if n < 10 then '0' :: pyStrNat n else pyStrNat n

/-- Python `str(v)` of a cell value. -/
def pyStr (v : Value) : Str :=
  match v with
  | .str s => s
  | .num n => intToStr n
  | .date y m d => pyStrNat y ++ '-' :: pad2 m ++ '-' :: pad2 d ++ " 00:00:00".data
  | .null => "nan".data

/-- `_format_period_from_maybe_date_or_string`, with `pd.to_datetime(·,
errors='coerce')` as the oracle `p` (`none` = `NaT`, also covering the
`except` branch).  The `if year and month` test is Python truthiness. -/
def formatPeriod (p : Value → Option (Nat × Nat)) (v : Value) : Option Str :=
  match p v with
  | some (y, m) => some (mkLabel y m)
  | none =>
    match v with
    | .str s =>
      match extractYM s with
      | (some y, some m) => if y = 0 ∨ m = 0 then none else some (mkLabel y m)
      | _ => none
    | _ => none

/-! ### `_normalize` and `_detect_period_columns` -/

/-- `_normalize`: NFKD, drop combining marks, lowercase, keep `[a-z0-9]`. -/
def pyNormalizeCol (s : Str) : Str :=
  ((s.map stripAcc).map pyLowerChar).filter keepAlnum

/-- `c.strip().lower()` used by the exact-match tests of the first pass. -/
def stripLower (s : Str) : Str := (pyStrip s).map pyLowerChar

/-- First-pass exact test for the ND role. -/
def exactNd (c : Str) : Bool :=
  stripLower c == "período nd".data || stripLower c == "periodo nd".data

/-- First-pass keyword test for the ND role. -/
def kwNd (c : Str) : Bool :=
  containsSub "nd".data (pyNormalizeCol c) && containsSub "periodo".data (pyNormalizeCol c)

/-- First-pass exact test for the Allocation role. -/
def exactAloc (c : Str) : Bool :=
  stripLower c == "período alocação".data || stripLower c == "periodo alocacao".data

/-- First-pass keyword test for the Allocation role. -/
def kwAloc (c : Str) : Bool :=
  containsSub "aloc".data (pyNormalizeCol c) && containsSub "periodo".data (pyNormalizeCol c)

/-- First-pass exact test for the Closing role. -/
def exactFech (c : Str) : Bool :=
  stripLower c == "período fechamento".data || stripLower c == "periodo fechamento".data

/-- First-pass keyword test for the Closing role. -/
def kwFech (c : Str) : Bool :=
  containsSub "fech".data (pyNormalizeCol c) && containsSub "periodo".data (pyNormalizeCol c)

/-- Second-pass test for the ND role: `all(k in n for k in _KEYWORDS_ND)`. -/
def cond2Nd (c : Str) : Bool :=
  containsSub "periodo".data (pyNormalizeCol c) && containsSub "nd".data (pyNormalizeCol c)

/-- Second-pass test for the Allocation role:
`any(k in n for k in _KEYWORDS_ALOC) and "nd" not in n`. -/
def cond2Aloc (c : Str) : Bool :=
  (containsSub "periodo".data (pyNormalizeCol c)
    || containsSub "aloc".data (pyNormalizeCol c)
    || containsSub "alocacao".data (pyNormalizeCol c)
    || containsSub "alocação".data (pyNormalizeCol c))
  && !containsSub "nd".data (pyNormalizeCol c)

/-- Second-pass test for the Closing role:
`any(k in n for k in _KEYWORDS_FECH) and "nd" not in n`. -/
def cond2Fech (c : Str) : Bool :=
  (containsSub "periodo".data (pyNormalizeCol c)
    || containsSub "fech".data (pyNormalizeCol c)
    || containsSub "fechamento".data (pyNormalizeCol c))
  && !containsSub "nd".data (pyNormalizeCol c)

/-- The first loop of `_detect_period_columns`, for one role: an exact-title
match always assigns; a keyword match assigns only while the role is empty.
(The three roles use disjoint state in the source's single loop, so each is
this fold.) -/
def pass1Role (exact kw : Str → Bool) (cols : List Str) : Option Str :=
  cols.foldl (fun acc c => if exact c || (kw c && acc.isNone) then some c else acc) none

/-- One role of `_detect_period_columns`: the first loop, then (only when the
role is still empty) the keyword-fallback loop with its `break`. -/
def roleResult (exact kw cond2 : Str → Bool) (cols : List Str) : Option Str :=
  match pass1Role exact kw cols with
  | some c => some c
  | none => cols.find? cond2

/-- `_detect_period_columns` on the column-name list: `(nd, allocation,
closing)`. -/
def detectPeriodColumns (cols : List Str) : Option Str × Option Str × Option Str :=
  (roleResult exactNd kwNd cond2Nd cols,
   roleResult exactAloc kwAloc cond2Aloc cols,
   roleResult exactFech kwFech cond2Fech cols)

example :
    detectPeriodColumns ["Período ND".data, "Periodo_Fechamento".data, "Área".data] =
      (some "Período ND".data, some "Periodo_Fechamento".data, some "Periodo_Fechamento".data) := by
  decide

/-! ### The filter application (`app`, lines 326-335) -/

/-- One step of the filter loop for one column: `if not valores: continue`
else keep the rows whose stringified column value is in the selection. -/
def filterRows (valores : List Str) (rows : List α) (toStr : α → Str) : List α :=
  if valores = [] then rows
  else rows.filter (fun r => valores.contains (toStr r))

/-- Python `str` applied to a formatted-period cell (`astype(str)` renders the
unresolved `None` as `"None"`). -/
def pyStrOpt (o : Option Str) : Str :=
  match o with
  | some l => l
  | none => "None".data

/-- Filtering on a formatted period column `*_fmt`: the column holds
`formatPeriod` of the original cell, and `astype(str)` stringifies it. -/
def periodFilter (p : Value → Option (Nat × Nat)) (valores : List Str)
    (rows : List Value) : List Value :=
  filterRows valores rows (fun v => pyStrOpt (formatPeriod p v))

/-! ### `_period_options_ordered_from_series` -/

/-- `month_num`: scan `_MESES_PT.items()` for a case-insensitive match with
the label's month part. -/
def monthFromAbbrev (mp : Str) : Option Nat :=
  (mesesList.find? (fun km => km.2.map pyLowerChar == mp.map pyLowerChar)).map (·.1)

/-- `others.add(str(v))`: set insertion. -/
def addOther (os : List Str) (s : Str) : List Str :=
  if s ∈ os then os else os ++ [s]

/-- One iteration of the loop of `_period_options_ordered_from_series` over
`(series value, formatted label)` pairs (the series has the default
`RangeIndex`, so `.items()`/`.iat` agree positionally).  In the labelled
branch, `lbl.split("/")` yielding anything but two parts would raise in
Python; it is unreachable because produced labels contain exactly one slash,
and the accumulator is returned unchanged in that case. -/
def optStep (p : Value → Option (Nat × Nat))
    (acc : List (Nat × Nat × Str) × List Str) (v : Value) :
    List (Nat × Nat × Str) × List Str :=
  match formatPeriod p v with
  | none =>
    match extractYM (pyStr v) with
    | (some y, some m) =>
      if y = 0 ∨ m = 0 then
        if v = .null then acc else (acc.1, addOther acc.2 (pyStr v))
      else (acc.1 ++ [(y, m, mkLabel y m)], acc.2)
    | _ =>
      if v = .null then acc else (acc.1, addOther acc.2 (pyStr v))
  | some lbl =>
    match splitSlashList lbl with
    | [mPart, yPart] =>
      let monthNum := monthFromAbbrev mPart
      let yearNum : Option Nat :=
        (parseNatDigits yPart).map (fun n => if yPart.length = 2 then 2000 + n else n)
      match yearNum, monthNum with
      | some y, some m =>
        if y = 0 ∨ m = 0 then (acc.1, addOther acc.2 lbl)
        else (acc.1 ++ [(y, m, lbl)], acc.2)
      | _, _ => (acc.1, addOther acc.2 lbl)
    | _ => acc

/-- Ordering key of `sorted(unique, key=lambda t: (t[0], t[1]))`. -/
def keyLE (a b : Nat × Nat × Str) : Prop :=
  a.1 < b.1 ∨ (a.1 = b.1 ∧ a.2.1 ≤ b.2.1)

instance : DecidableRel keyLE := fun a b =>
  inferInstanceAs (Decidable (a.1 < b.1 ∨ (a.1 = b.1 ∧ a.2.1 ≤ b.2.1)))

/-- `_period_options_ordered_from_series` on the list of series values:
formatted labels are classified, de-duplicated (`set`), sorted
chronologically, and the unresolvable strings are appended sorted
lexicographically. -/
def orderedOptions (p : Value → Option (Nat × Nat)) (vs : List Value) : List Str :=
  let acc := vs.foldl (optStep p) ([], [])
  let uts := acc.1.dedup
  let sortedT := List.insertionSort keyLE uts
  sortedT.map (fun t => t.2.2) ++
    (if acc.2 = [] then [] else List.insertionSort strLE acc.2)

example :
    orderedOptions (fun _ => none)
      [.str "Set/25".data, .str "Set/25".data, .str "Out/24".data, .str "xyz".data] =
      ["Out/24".data, "Set/25".data, "xyz".data] := by decide

/-! ### Concrete oracle instances for `pd.to_datetime` -/

/-- `pd.to_datetime(·, errors='coerce')` on values it cannot parse: `NaT`.
(Free-text words such as `"Conjunto/25"`, `"Set/25"`, `"blah"` are not
recognizable dates.) -/
def pdNaT : Value → Option (Nat × Nat) := fun _ => none

/-- `pd.to_datetime(·, errors='coerce')` on constructed datetimes: parsing a
datetime object always succeeds and returns its own year and month; other
values are treated as unparseable. -/
def pdDate : Value → Option (Nat × Nat)
  | .date y m _ => some (y, m)
  | _ => none

/-- The column-name list of the spec's Example 5. -/
def exampleCols : List Str :=
  ["Período ND".data, "Periodo_Fechamento".data, "Área".data]

/-- The canonical-triple invariant of the option builder: every accumulated
triple is a year 2000–2099, a month 1–12, and the label the f-string produces
for them. -/
def canonT (t : Nat × Nat × Str) : Prop :=
  2000 ≤ t.1 ∧ t.1 ≤ 2099 ∧ 1 ≤ t.2.1 ∧ t.2.1 ≤ 12 ∧
    t.2.2 = canonLabel (t.1 % 100) t.2.1

/-- A string of the unresolved bucket: the extractor finds no usable
(year, month) in it. -/
def unresStr (s : Str) : Prop :=
  ∀ y m, extractYM s = (some y, some m) → y = 0 ∨ m = 0

/-! ### Digit-string lemmas -/

theorem digitsRevAux_zero (f : Nat) : digitsRevAux f 0 = [] := by
  cases f <;> simp [digitsRevAux]

theorem digitsRevAux_congr :
    ∀ f₁ f₂ n, n ≤ f₁ → n ≤ f₂ → digitsRevAux f₁ n = digitsRevAux f₂ n := by
  intro f₁
  induction f₁ with
  | zero =>
    intro f₂ n h1 _
    interval_cases n
    simp [digitsRevAux, digitsRevAux_zero]
  | succ f ih =>
    intro f₂ n h1 h2
    rcases Nat.eq_zero_or_pos n with hn | hn
    · subst hn; simp [digitsRevAux_zero]
    · obtain ⟨g, rfl⟩ : ∃ g, f₂ = g + 1 := ⟨f₂ - 1, by omega⟩
      simp only [digitsRevAux, if_neg (by omega : ¬ n = 0)]
      have hd : n / 10 ≤ f := by omega
      have hd2 : n / 10 ≤ g := by omega
      rw [ih _ _ hd hd2]

theorem digitsRev_succ {n : Nat} (h : n ≠ 0) :
    digitsRev n = n % 10 :: digitsRev (n / 10) := by
  obtain ⟨k, rfl⟩ : ∃ k, n = k + 1 := ⟨n - 1, by omega⟩
  show digitsRevAux (k + 1) (k + 1) = _
  simp only [digitsRevAux, if_neg h]
  unfold digitsRev
  rw [digitsRevAux_congr k ((k + 1) / 10) ((k + 1) / 10) (by omega) (by omega)]

theorem lastTwo_pyStrNat {y : Nat} (h : 10 ≤ y) :
    lastTwoChars (pyStrNat y) = [digitCh (y / 10 % 10), digitCh (y % 10)] := by
  have h0 : y ≠ 0 := by omega
  have h1 : y / 10 ≠ 0 := by omega
  rw [pyStrNat, if_neg h0, digitsRev_succ h0, digitsRev_succ h1]
  simp [lastTwoChars]

theorem mkLabel_eq_canon {y : Nat} (m : Nat) (h : 10 ≤ y) :
    mkLabel y m = canonLabel (y % 100) m := by
  rw [mkLabel, canonLabel, lastTwo_pyStrNat h]
  have e1 : y / 10 % 10 = y % 100 / 10 := by omega
  have e2 : y % 10 = y % 100 % 10 := by omega
  rw [e1, e2]

/-! ### Range lemmas for the extractor -/

theorem isDig_val {c : Char} (h : isDig c = true) : 48 ≤ c.toNat ∧ c.toNat ≤ 57 := by
  simpa [isDig] using h

theorem dval_le {c : Char} (h : isDig c = true) : dval c ≤ 9 := by
  have := isDig_val h
  unfold dval
  omega

theorem find4_range : ∀ (l : Str) (y : Nat), find4 l = some y → 2000 ≤ y ∧ y ≤ 2099 := by
  intro l
  induction l with
  | nil => intro y h; simp [find4] at h
  | cons a t ih =>
    intro y h
    cases t with
    | nil => simp [find4] at h
    | cons b t2 =>
      cases t2 with
      | nil => simp [find4] at h
      | cons c t3 =>
        cases t3 with
        | nil => simp [find4] at h
        | cons d rest =>
          rw [find4] at h
          split at h
          · rename_i hc
            obtain ⟨h1, h2, h3, h4⟩ := hc
            have hc1 := dval_le h3
            have hc2 := dval_le h4
            injection h with h
            omega
          · exact ih y h

theorem last2dig_range (l : Str) (k : Nat) (h : last2dig l = some k) : k ≤ 99 := by
  unfold last2dig at h
  split at h
  · rename_i b a t _
    split at h
    · rename_i hc
      have h1 := dval_le hc.1
      have h2 := dval_le hc.2
      injection h with h
      omega
    · exact absurd h (by simp)
  · exact absurd h (by simp)

theorem kwScan_range (l : Str) (m : Nat) (h : kwScan l = some m) : 1 ≤ m ∧ m ≤ 12 := by
  unfold kwScan at h
  rw [Option.map_eq_some'] at h
  obtain ⟨km, hfind, hm⟩ := h
  have hmem := List.mem_of_find?_eq_some hfind
  have hall : ∀ x ∈ monthKeywords, 1 ≤ x.1 ∧ x.1 ≤ 12 := by decide
  subst hm
  exact hall km hmem

theorem matchCore_range (l : Str) (m : Nat) (h : matchCore l = some m) :
    1 ≤ m ∧ m ≤ 12 := by
  unfold matchCore at h
  split at h
  · exact absurd h (by simp)
  · rename_i c1 r1
    split at h
    · rename_i c2 r2
      split at h
      · rename_i hc
        have := dval_le hc.2.1
        injection h with h
        omega
      · split at h
        · rename_i hc
          have := dval_le hc.1
          injection h with h
          omega
        · split at h
          · rename_i hc
            have := isDig_val hc.2.1
            injection h with h
            unfold dval at h
            omega
          · exact absurd h (by simp)
    · split at h
      · rename_i hc
        have := dval_le hc.1
        injection h with h
        omega
      · exact absurd h (by simp)

theorem goSearch_range : ∀ (l : Str) (m : Nat), goSearch l = some m → 1 ≤ m ∧ m ≤ 12 := by
  intro l
  induction l with
  | nil => intro m h; simp [goSearch] at h
  | cons c rest ih =>
    intro m h
    rw [goSearch] at h
    split at h
    · exact ih m h
    · split at h
      · rename_i m' hm'
        injection h with h
        subst h
        exact matchCore_range _ _ hm'
      · exact ih m h

theorem searchMonth_range (l : Str) (m : Nat) (h : searchMonth l = some m) :
    1 ≤ m ∧ m ≤ 12 := by
  unfold searchMonth at h
  split at h
  · rename_i m' hm'
    injection h with h
    subst h
    exact matchCore_range _ _ hm'
  · exact goSearch_range _ _ h

theorem extractYM_year_range (s : Str) (y : Nat) (mo : Option Nat)
    (h : extractYM s = (some y, mo)) : 2000 ≤ y ∧ y ≤ 2099 := by
  simp only [extractYM] at h
  split at h
  · simp at h
  · rw [Prod.mk.injEq] at h
    obtain ⟨h1, _⟩ := h
    split at h1
    · rename_i y' hy'
      injection h1 with h1
      subst h1
      exact find4_range _ _ hy'
    · rw [Option.map_eq_some'] at h1
      obtain ⟨k, hk, hky⟩ := h1
      have := last2dig_range _ _ hk
      omega

theorem extractYM_month_range (s : Str) (yo : Option Nat) (m : Nat)
    (h : extractYM s = (yo, some m)) : 1 ≤ m ∧ m ≤ 12 := by
  simp only [extractYM] at h
  split at h
  · simp at h
  · rw [Prod.mk.injEq] at h
    obtain ⟨_, h2⟩ := h
    split at h2
    · rename_i m' hm'
      injection h2 with h2
      subst h2
      exact kwScan_range _ _ hm'
    · exact searchMonth_range _ _ h2

/-! ### Round-trip of produced labels through the extractor -/

theorem digit_char_props (a : Nat) (ha : a ≤ 9) :
    pyLowerChar (digitCh a) = digitCh a ∧ stripAcc (digitCh a) = digitCh a ∧
      keepExt (digitCh a) = true ∧ isSpaceCh (digitCh a) = false ∧
      isDig (digitCh a) = true ∧ dval (digitCh a) = a := by
  interval_cases a <;> exact ⟨rfl, rfl, rfl, rfl, rfl, rfl⟩

theorem slash_props :
    pyLowerChar '/' = '/' ∧ stripAcc '/' = '/' ∧ keepExt '/' = true ∧
      isSpaceCh '/' = false := by
  decide

theorem dropWhile_all_neg (p : Char → Bool) :
    ∀ l : Str, (∀ c ∈ l, p c = false) → l.dropWhile p = l := by
  intro l h
  cases l with
  | nil => rfl
  | cons c t =>
    rw [List.dropWhile_cons, if_neg]
    simp [h c (List.mem_cons_self c t)]

theorem pyStrip_id (l : Str) (h : ∀ c ∈ l, isSpaceCh c = false) : pyStrip l = l := by
  unfold pyStrip
  rw [dropWhile_all_neg _ l h,
    dropWhile_all_neg _ l.reverse (fun c hc => h c (List.mem_reverse.mp hc)),
    List.reverse_reverse]

theorem last2dig_concrete (l1 l2 l3 : Char) (a b : Nat) (ha : a ≤ 9) (hb : b ≤ 9) :
    last2dig (l1 :: l2 :: l3 :: '/' :: [digitCh a, digitCh b]) = some (10 * a + b) := by
  have hfa := digit_char_props a ha
  have hfb := digit_char_props b hb
  simp [last2dig, hfa.2.2.2.2.1, hfb.2.2.2.2.1, hfa.2.2.2.2.2, hfb.2.2.2.2.2]

/-- Re-running the extractor on a produced label: the generic part, for a
three-letter month abbreviation (all twelve are three letters). -/
theorem extractYM_concrete3 (u1 u2 u3 l1 l2 l3 : Char) (a b mres : Nat)
    (ha : a ≤ 9) (hb : b ≤ 9)
    (hm1 : pyLowerChar u1 = l1) (hm2 : pyLowerChar u2 = l2) (hm3 : pyLowerChar u3 = l3)
    (hs1 : stripAcc l1 = l1) (hs2 : stripAcc l2 = l2) (hs3 : stripAcc l3 = l3)
    (hk1 : keepExt l1 = true) (hk2 : keepExt l2 = true) (hk3 : keepExt l3 = true)
    (hn1 : isSpaceCh l1 = false) (hn2 : isSpaceCh l2 = false) (hn3 : isSpaceCh l3 = false)
    (hfind : find4 (l1 :: l2 :: l3 :: '/' :: [digitCh a, digitCh b]) = none)
    (hkw : kwScan (l1 :: l2 :: l3 :: '/' :: [digitCh a, digitCh b]) = some mres) :
    extractYM (u1 :: u2 :: u3 :: '/' :: [digitCh a, digitCh b]) =
      (some (2000 + (10 * a + b)), some mres) := by
  have hfa := digit_char_props a ha
  have hfb := digit_char_props b hb
  have hmap : List.map pyLowerChar (u1 :: u2 :: u3 :: '/' :: [digitCh a, digitCh b]) =
      l1 :: l2 :: l3 :: '/' :: [digitCh a, digitCh b] := by
    simp [hm1, hm2, hm3, hfa.1, hfb.1, slash_props.1]
  have hstrip : pyStrip (l1 :: l2 :: l3 :: '/' :: [digitCh a, digitCh b]) =
      l1 :: l2 :: l3 :: '/' :: [digitCh a, digitCh b] := by
    apply pyStrip_id
    intro c hc
    simp only [List.mem_cons, List.not_mem_nil, or_false] at hc
    rcases hc with rfl | rfl | rfl | rfl | rfl | rfl
    · exact hn1
    · exact hn2
    · exact hn3
    · exact slash_props.2.2.2
    · exact hfa.2.2.2.1
    · exact hfb.2.2.2.1
  have hacc : List.map stripAcc (l1 :: l2 :: l3 :: '/' :: [digitCh a, digitCh b]) =
      l1 :: l2 :: l3 :: '/' :: [digitCh a, digitCh b] := by
    simp [hs1, hs2, hs3, hfa.2.1, hfb.2.1, slash_props.2.1]
  have hfil : List.filter keepExt (l1 :: l2 :: l3 :: '/' :: [digitCh a, digitCh b]) =
      l1 :: l2 :: l3 :: '/' :: [digitCh a, digitCh b] := by
    simp [List.filter, hk1, hk2, hk3, hfa.2.2.1, hfb.2.2.1, slash_props.2.2.1]
  simp only [extractYM, hmap, hstrip, hacc, hfil, hfind, hkw,
    last2dig_concrete l1 l2 l3 a b ha hb, Option.map_some']
  rw [if_neg (by simp)]

theorem extractYM_canonLabel {k m : Nat} (hk : k < 100) (h1 : 1 ≤ m) (h2 : m ≤ 12) :
    extractYM (canonLabel k m) = (some (2000 + k), some m) := by
  have ha : k / 10 ≤ 9 := by omega
  have hb : k % 10 ≤ 9 := by omega
  have he : 2000 + k = 2000 + (10 * (k / 10) + k % 10) := by omega
  interval_cases m
  · rw [he]
    exact extractYM_concrete3 'J' 'a' 'n' 'j' 'a' 'n' (k / 10) (k % 10) 1 ha hb
      (by decide) (by decide) (by decide) (by decide) (by decide) (by decide)
      (by decide) (by decide) (by decide) (by decide) (by decide) (by decide)
      (by simp [find4]) (by simp [kwScan, monthKeywords, containsSub, startsWithL])
  · rw [he]
    exact extractYM_concrete3 'F' 'e' 'v' 'f' 'e' 'v' (k / 10) (k % 10) 2 ha hb
      (by decide) (by decide) (by decide) (by decide) (by decide) (by decide)
      (by decide) (by decide) (by decide) (by decide) (by decide) (by decide)
      (by simp [find4]) (by simp [kwScan, monthKeywords, containsSub, startsWithL])
  · rw [he]
    exact extractYM_concrete3 'M' 'a' 'r' 'm' 'a' 'r' (k / 10) (k % 10) 3 ha hb
      (by decide) (by decide) (by decide) (by decide) (by decide) (by decide)
      (by decide) (by decide) (by decide) (by decide) (by decide) (by decide)
      (by simp [find4]) (by simp [kwScan, monthKeywords, containsSub, startsWithL])
  · rw [he]
    exact extractYM_concrete3 'A' 'b' 'r' 'a' 'b' 'r' (k / 10) (k % 10) 4 ha hb
      (by decide) (by decide) (by decide) (by decide) (by decide) (by decide)
      (by decide) (by decide) (by decide) (by decide) (by decide) (by decide)
      (by simp [find4]) (by simp [kwScan, monthKeywords, containsSub, startsWithL])
  · rw [he]
    exact extractYM_concrete3 'M' 'a' 'i' 'm' 'a' 'i' (k / 10) (k % 10) 5 ha hb
      (by decide) (by decide) (by decide) (by decide) (by decide) (by decide)
      (by decide) (by decide) (by decide) (by decide) (by decide) (by decide)
      (by simp [find4]) (by simp [kwScan, monthKeywords, containsSub, startsWithL])
  · rw [he]
    exact extractYM_concrete3 'J' 'u' 'n' 'j' 'u' 'n' (k / 10) (k % 10) 6 ha hb
      (by decide) (by decide) (by decide) (by decide) (by decide) (by decide)
      (by decide) (by decide) (by decide) (by decide) (by decide) (by decide)
      (by simp [find4]) (by simp [kwScan, monthKeywords, containsSub, startsWithL])
  · rw [he]
    exact extractYM_concrete3 'J' 'u' 'l' 'j' 'u' 'l' (k / 10) (k % 10) 7 ha hb
      (by decide) (by decide) (by decide) (by decide) (by decide) (by decide)
      (by decide) (by decide) (by decide) (by decide) (by decide) (by decide)
      (by simp [find4]) (by simp [kwScan, monthKeywords, containsSub, startsWithL])
  · rw [he]
    exact extractYM_concrete3 'A' 'g' 'o' 'a' 'g' 'o' (k / 10) (k % 10) 8 ha hb
      (by decide) (by decide) (by decide) (by decide) (by decide) (by decide)
      (by decide) (by decide) (by decide) (by decide) (by decide) (by decide)
      (by simp [find4]) (by simp [kwScan, monthKeywords, containsSub, startsWithL])
  · rw [he]
    exact extractYM_concrete3 'S' 'e' 't' 's' 'e' 't' (k / 10) (k % 10) 9 ha hb
      (by decide) (by decide) (by decide) (by decide) (by decide) (by decide)
      (by decide) (by decide) (by decide) (by decide) (by decide) (by decide)
      (by simp [find4]) (by simp [kwScan, monthKeywords, containsSub, startsWithL])
  · rw [he]
    exact extractYM_concrete3 'O' 'u' 't' 'o' 'u' 't' (k / 10) (k % 10) 10 ha hb
      (by decide) (by decide) (by decide) (by decide) (by decide) (by decide)
      (by decide) (by decide) (by decide) (by decide) (by decide) (by decide)
      (by simp [find4]) (by simp [kwScan, monthKeywords, containsSub, startsWithL])
  · rw [he]
    exact extractYM_concrete3 'N' 'o' 'v' 'n' 'o' 'v' (k / 10) (k % 10) 11 ha hb
      (by decide) (by decide) (by decide) (by decide) (by decide) (by decide)
      (by decide) (by decide) (by decide) (by decide) (by decide) (by decide)
      (by simp [find4]) (by simp [kwScan, monthKeywords, containsSub, startsWithL])
  · rw [he]
    exact extractYM_concrete3 'D' 'e' 'z' 'd' 'e' 'z' (k / 10) (k % 10) 12 ha hb
      (by decide) (by decide) (by decide) (by decide) (by decide) (by decide)
      (by decide) (by decide) (by decide) (by decide) (by decide) (by decide)
      (by simp [find4]) (by simp [kwScan, monthKeywords, containsSub, startsWithL])

/-! ### `formatPeriod` characterization -/

theorem formatPeriod_some (p : Value → Option (Nat × Nat))
    (hp : ∀ v y m, p v = some (y, m) → 1 ≤ m ∧ m ≤ 12 ∧ 1677 ≤ y ∧ y ≤ 2262)
    (v : Value) (l : Str) (h : formatPeriod p v = some l) :
    ∃ k m, k < 100 ∧ 1 ≤ m ∧ m ≤ 12 ∧ l = canonLabel k m := by
  unfold formatPeriod at h
  split at h
  · rename_i y m hpv
    obtain ⟨hm1, hm2, hy1, hy2⟩ := hp v y m hpv
    injection h with h
    exact ⟨y % 100, m, Nat.mod_lt _ (by omega), hm1, hm2,
      by rw [← h, mkLabel_eq_canon m (by omega)]⟩
  · split at h
    · rename_i s hpn
      split at h
      · rename_i y m hext
        split at h
        · exact absurd h (by simp)
        · rename_i hnz
          injection h with h
          have hy := extractYM_year_range s y (some m) hext
          have hm := extractYM_month_range s (some y) m hext
          exact ⟨y % 100, m, Nat.mod_lt _ (by omega), hm.1, hm.2,
            by rw [← h, mkLabel_eq_canon m (by omega)]⟩
      · exact absurd h (by simp)
    · exact absurd h (by simp)

/-! ### Claim theorems -/

/-- C1: contrary to the spec, the string `"Conjunto/25"` does not resolve to
September.  The month keywords are scanned in month-number order and `"jun"`
(month 6) is a substring of `"conjunto"`, so the free-text path yields
`(2025, 6)` and the converter returns the label `"Jun/25"`, not `"Set/25"` —
even though the source's own module docstring says it fixes the
`"Conjunto/25"` case and its keyword table lists `"conj"`, `"conjun"`,
`"conjunto"` as month-9 aliases (which are unreachable for this input). -/
theorem c1_conjunto_resolves_to_june :
    extractYM "Conjunto/25".data = (some 2025, some 6) ∧
    formatPeriod pdNaT (.str "Conjunto/25".data) = some "Jun/25".data := by
  decide

/-- C2 counterexample: on the columns of Example 5 the detector does not
leave the Allocation role unresolved — the keyword fallback uses
`any(k in n for k in _KEYWORDS_ALOC)` with `"periodo"` in the keyword list,
so the closing column `"Periodo_Fechamento"` also fills the Allocation role. -/
theorem c2_example5_allocation_not_none :
    (detectPeriodColumns exampleCols).2.1 = some "Periodo_Fechamento".data := by
  decide

/-- C2 amended: for columns `["Período ND", "Periodo_Fechamento", "Área"]`
the detector returns nd = `"Período ND"`, allocation = `"Periodo_Fechamento"`
(not `None`), and closing = `"Periodo_Fechamento"`. -/
theorem c2_example5_actual_result :
    detectPeriodColumns exampleCols =
      (some "Período ND".data, some "Periodo_Fechamento".data,
       some "Periodo_Fechamento".data) := by
  decide

/-- C5: the Value-to-Label Converter is total on cell values: for every
oracle consistent with `pd.Timestamp` bounds (months 1–12, years 1677–2262)
and every cell, it returns either `None` or a valid Period Label — a fixed
Portuguese month abbreviation (`1 ≤ m ≤ 12`), a slash and a two-digit year —
and, being a total function (the source wraps the date parse in
`try/except`/`errors='coerce'` and the free-text path is pure), it never
raises on malformed input. -/
theorem c5_format_total_valid (p : Value → Option (Nat × Nat))
    (hp : ∀ v y m, p v = some (y, m) → 1 ≤ m ∧ m ≤ 12 ∧ 1677 ≤ y ∧ y ≤ 2262)
    (v : Value) :
    formatPeriod p v = none ∨
      ∃ k m, k < 100 ∧ 1 ≤ m ∧ m ≤ 12 ∧ formatPeriod p v = some (canonLabel k m) := by
  cases hf : formatPeriod p v with
  | none => exact Or.inl rfl
  | some l =>
    obtain ⟨k, m, hk, h1, h2, hl⟩ := formatPeriod_some p hp v l hf
    exact Or.inr ⟨k, m, hk, h1, h2, by rw [hl]⟩


/-- C5 witness: instantiated at the `NaT` oracle and the cell `"blah"`
(Example 4), which is classified as unresolved. -/
theorem c5_format_total_valid_witness :
    formatPeriod pdNaT (.str "blah".data) = none ∨
      ∃ k m, k < 100 ∧ 1 ≤ m ∧ m ≤ 12 ∧
        formatPeriod pdNaT (.str "blah".data) = some (canonLabel k m) :=
  c5_format_total_valid pdNaT (fun v y m h => by simp [pdNaT] at h) (.str "blah".data)

/-- C8: converting a structured date with `2000 ≤ year ≤ 2099` and
`1 ≤ month ≤ 12` yields exactly `"<Abbrev[month]>/<two-digit year>"`
(`canonLabel (y % 100) m` is the month abbreviation from the fixed table,
a slash, and the two digit characters of `y % 100`), provided the date
parser returns the date itself, which `pd.to_datetime` does on a datetime. -/
theorem c8_structured_date_label (p : Value → Option (Nat × Nat)) (y m d : Nat)
    (hp : p (.date y m d) = some (y, m)) (h1 : 2000 ≤ y) (h2 : y ≤ 2099)
    (h3 : 1 ≤ m) (h4 : m ≤ 12) :
    formatPeriod p (.date y m d) = some (canonLabel (y % 100) m) := by
  simp only [formatPeriod, hp]
  rw [mkLabel_eq_canon m (by omega)]

/-- C8 witness: the date 2025-09-01 converts to `"Set/25"` (Example 3). -/
theorem c8_structured_date_label_witness :
    formatPeriod pdDate (.date 2025 9 1) = some "Set/25".data := by
  have h := c8_structured_date_label pdDate 2025 9 1 (by decide) (by decide)
    (by decide) (by decide) (by decide)
  rw [h]
  decide

/-- C9 counterexample: the label `"Mai/99"` is produced by `formatPeriod`
from the structured date 1999-05-01 (pandas timestamps reach back to 1677),
but running it back through the free-text extractor yields year 2099, not
the year 1999 that generated it. -/
theorem c9_label_roundtrip_counterexample :
    formatPeriod pdDate (.date 1999 5 1) = some "Mai/99".data ∧
    extractYM "Mai/99".data = (some 2099, some 5) ∧ (2099 : Nat) ≠ 1999 := by
  decide

/-- C9 amended: the round trip holds for every label whose generating pair
has `2000 ≤ year ≤ 2099` (all labels born on the free-text path, and date
cells in that range): re-extracting the produced label returns exactly the
generating `(year, month)`.  Labels generated from years outside 2000–2099
are reinterpreted inside that range, as the counterexample shows. -/
theorem c9_label_roundtrip_in_range (y m : Nat) (h1 : 2000 ≤ y) (h2 : y ≤ 2099)
    (h3 : 1 ≤ m) (h4 : m ≤ 12) :
    extractYM (mkLabel y m) = (some y, some m) := by
  rw [mkLabel_eq_canon m (by omega), extractYM_canonLabel (Nat.mod_lt _ (by omega)) h3 h4]
  have he : 2000 + y % 100 = y := by omega
  rw [he]

/-- C9 witness: the label of (2025, 9) — `"Set/25"` — round-trips. -/
theorem c9_label_roundtrip_in_range_witness :
    extractYM (mkLabel 2025 9) = (some 2025, some 9) :=
  c9_label_roundtrip_in_range 2025 9 (by decide) (by decide) (by decide) (by decide)

/-- C10: whenever the free-text extractor returns a year, that year lies in
2000–2099: the four-digit search only matches `20` followed by two digits,
and the trailing two-digit fallback yields `2000 + digits`.  In particular
`"Set/1999"` resolves to 2099, never 1999. -/
theorem c10_extracted_year_in_range (s : Str) (y : Nat) (mo : Option Nat)
    (h : extractYM s = (some y, mo)) : 2000 ≤ y ∧ y ≤ 2099 :=
  extractYM_year_range s y mo h

/-- C10 witness: instantiated at `"Set/1999"`, which extracts year 2099. -/
theorem c10_extracted_year_in_range_witness : 2000 ≤ 2099 ∧ 2099 ≤ 2099 :=
  c10_extracted_year_in_range "Set/1999".data 2099 (some 9) (by decide)

/-! ### Substring and normalization lemmas -/

theorem startsWithL_mem : ∀ (n h : Str), startsWithL n h = true → ∀ c ∈ n, c ∈ h := by
  intro n
  induction n with
  | nil => intro h _ c hc; simp at hc
  | cons a as ih =>
    intro h hs c hc
    cases h with
    | nil => simp [startsWithL] at hs
    | cons b bs =>
      rw [startsWithL, Bool.and_eq_true, beq_iff_eq] at hs
      obtain ⟨rfl, hs⟩ := hs
      rcases List.mem_cons.mp hc with rfl | hc
      · exact List.mem_cons_self _ _
      · exact List.mem_cons_of_mem _ (ih bs hs c hc)

theorem containsSub_mem : ∀ (n h : Str), containsSub n h = true → ∀ c ∈ n, c ∈ h := by
  intro n h
  induction h with
  | nil =>
    intro hc c hmem
    rw [containsSub, List.isEmpty_iff] at hc
    subst hc
    simp at hmem
  | cons b bs ih =>
    intro hc c hmem
    rw [containsSub, Bool.or_eq_true] at hc
    rcases hc with hc | hc
    · exact startsWithL_mem n (b :: bs) hc c hmem
    · exact List.mem_cons_of_mem _ (ih hc c hmem)

theorem cedilla_never_in_normalized (c : Str) :
    containsSub "alocação".data (pyNormalizeCol c) = false := by
  cases h : containsSub "alocação".data (pyNormalizeCol c) with
  | false => rfl
  | true =>
    have hmem := containsSub_mem _ _ h 'ç' (by decide)
    have h2 := (List.mem_filter.mp hmem).2
    exact absurd h2 (by decide)

/-! ### Characterization of the detection passes -/

theorem getLast?_cons_getD (a : α) (l : List α) :
    (a :: l).getLast? = some (l.getLast?.getD a) := by
  induction l generalizing a with
  | nil => rfl
  | cons b t ih => rw [List.getLast?_cons_cons, ih b, Option.getD_some]

theorem pass1Role_some_acc (exact kw : Str → Bool) :
    ∀ (cols : List Str) (a : Str),
      cols.foldl (fun acc c => if exact c || (kw c && acc.isNone) then some c else acc)
          (some a) =
        some (((cols.filter exact).getLast?).getD a) := by
  intro cols
  induction cols with
  | nil => intro a; simp
  | cons c rest ih =>
    intro a
    simp only [List.foldl_cons, Option.isNone_some, Bool.and_false, Bool.or_false]
    cases hE : exact c with
    | true =>
      rw [if_pos rfl, ih c, List.filter_cons_of_pos hE, getLast?_cons_getD, Option.getD_some]
    | false =>
      rw [if_neg (by simp), ih a, List.filter_cons_of_neg (by simp [hE])]

theorem pass1Role_char (exact kw : Str → Bool) (cols : List Str) :
    pass1Role exact kw cols =
      if cols.filter exact = [] then cols.find? kw
      else (cols.filter exact).getLast? := by
  induction cols with
  | nil => simp [pass1Role]
  | cons c rest ih =>
    rw [pass1Role, List.foldl_cons]
    by_cases hE : exact c = true
    · have hacc :
          (if (exact c || kw c && (none : Option Str).isNone) = true then some c
            else (none : Option Str)) = some c := by simp [hE]
      rw [hacc, pass1Role_some_acc, List.filter_cons_of_pos hE, if_neg (by simp),
        getLast?_cons_getD]
    · have hE' : exact c = false := by simpa using hE
      by_cases hK : kw c = true
      · have hacc :
            (if (exact c || kw c && (none : Option Str).isNone) = true then some c
              else (none : Option Str)) = some c := by simp [hE', hK]
        rw [hacc, pass1Role_some_acc, List.filter_cons_of_neg (by simp [hE'])]
        by_cases hF : rest.filter exact = []
        · rw [if_pos hF, hF, List.find?_cons_of_pos _ hK]
          simp
        · rw [if_neg hF]
          obtain ⟨e, he⟩ := Option.isSome_iff_exists.mp (List.getLast?_isSome.mpr hF)
          rw [he, Option.getD_some]
      · have hK' : kw c = false := by simpa using hK
        have hacc :
            (if (exact c || kw c && (none : Option Str).isNone) = true then some c
              else (none : Option Str)) = none := by simp [hE', hK']
        rw [hacc,
          show (rest.foldl
              (fun acc c => if exact c || (kw c && acc.isNone) then some c else acc) none) =
            pass1Role exact kw rest from rfl, ih,
          List.filter_cons_of_neg (by simp [hE']),
          List.find?_cons_of_neg _ (by simp [hK'])]

theorem roleResult_of_pass1_none (exact kw cond2 : Str → Bool) (cols : List Str)
    (h : pass1Role exact kw cols = none) :
    roleResult exact kw cond2 cols = cols.find? cond2 := by
  rw [roleResult, h]

theorem roleResult_char (exact kw cond2 : Str → Bool) (cols : List Str) :
    (cols.filter exact = [] →
      roleResult exact kw cond2 cols =
        match cols.find? kw with
        | some c => some c
        | none => cols.find? cond2) ∧
    (cols.filter exact ≠ [] →
      roleResult exact kw cond2 cols = (cols.filter exact).getLast?) := by
  constructor
  · intro hF
    unfold roleResult
    rw [pass1Role_char, if_pos hF]
  · intro hF
    unfold roleResult
    rw [pass1Role_char, if_neg hF]
    obtain ⟨e, he⟩ := Option.isSome_iff_exists.mp (List.getLast?_isSome.mpr hF)
    rw [he]

/-- C4 counterexample: in `["Periodo ND Antigo", "Período ND"]` the first
column already satisfies the ND role's keyword condition, yet the detector
returns the second column: the exact-title branch of the first loop has no
`not nd_col` guard and overwrites the previously assigned column. -/
theorem c4_overwrite_counterexample :
    kwNd "Periodo ND Antigo".data = true ∧
    (detectPeriodColumns ["Periodo ND Antigo".data, "Período ND".data]).1 =
      some "Período ND".data ∧
    "Período ND".data ≠ "Periodo ND Antigo".data := by
  decide

/-- C4 amended: for each role, (a) when no column is an exact-title match
for the role, the earliest column satisfying the role's first-pass keyword
condition wins, and only if none does is the earliest second-pass fallback
column taken — so within each pass the earliest column wins and the fallback
never overrides a filled role; but (b) whenever exact-title matches exist,
the LAST exact-title column wins, overwriting any earlier keyword
assignment (the exact-title branch has no `not <role>_col` guard). -/
theorem c4_earliest_wins_qualified (cols : List Str) :
    ((cols.filter exactNd = [] →
        (detectPeriodColumns cols).1 =
          match cols.find? kwNd with
          | some c => some c
          | none => cols.find? cond2Nd) ∧
      (cols.filter exactNd ≠ [] →
        (detectPeriodColumns cols).1 = (cols.filter exactNd).getLast?)) ∧
    ((cols.filter exactAloc = [] →
        (detectPeriodColumns cols).2.1 =
          match cols.find? kwAloc with
          | some c => some c
          | none => cols.find? cond2Aloc) ∧
      (cols.filter exactAloc ≠ [] →
        (detectPeriodColumns cols).2.1 = (cols.filter exactAloc).getLast?)) ∧
    ((cols.filter exactFech = [] →
        (detectPeriodColumns cols).2.2 =
          match cols.find? kwFech with
          | some c => some c
          | none => cols.find? cond2Fech) ∧
      (cols.filter exactFech ≠ [] →
        (detectPeriodColumns cols).2.2 = (cols.filter exactFech).getLast?)) :=
  ⟨roleResult_char exactNd kwNd cond2Nd cols,
   roleResult_char exactAloc kwAloc cond2Aloc cols,
   roleResult_char exactFech kwFech cond2Fech cols⟩

/-- C4 witness: on `["Periodo ND Antigo", "Período ND"]` the exact-title
clause of the amended rule applies and picks the last exact-title column. -/
theorem c4_earliest_wins_qualified_witness :
    (detectPeriodColumns ["Periodo ND Antigo".data, "Período ND".data]).1 =
      some "Período ND".data := by
  have h :=
    (c4_earliest_wins_qualified ["Periodo ND Antigo".data, "Período ND".data]).1.2
      (by decide)
  rw [h]
  decide

/-- C3 counterexample: the single column `"Periodo Total"` contains neither
`"aloc"` nor `"alocacao"`, is untouched by the first pass, and is
nevertheless assigned the Allocation role by the keyword fallback — because
the fallback uses `any(...)` over a keyword list that contains `"periodo"`. -/
theorem c3_periodo_only_gets_allocation :
    (detectPeriodColumns ["Periodo Total".data]).2.1 = some "Periodo Total".data ∧
    containsSub "aloc".data (pyNormalizeCol "Periodo Total".data) = false ∧
    containsSub "alocacao".data (pyNormalizeCol "Periodo Total".data) = false ∧
    pass1Role exactAloc kwAloc ["Periodo Total".data] = none := by
  decide

/-- C3 amended: in the keyword-fallback pass (reached when the first pass
left the role empty), a column gets the Allocation role only if its
normalized name contains at least ONE of `{"periodo", "aloc", "alocacao"}` —
not necessarily `"periodo"` AND an aloc keyword — and does not contain
`"nd"`; likewise Closing requires one of `{"periodo", "fech", "fechamento"}`
and no `"nd"`.  (The keyword `"alocação"` also sits in the source's list but
can never match a normalized name, which is accent-free.) -/
theorem c3_fallback_role_condition (cols : List Str) :
    (∀ c, pass1Role exactAloc kwAloc cols = none →
      (detectPeriodColumns cols).2.1 = some c →
      c ∈ cols ∧
        (containsSub "periodo".data (pyNormalizeCol c) = true ∨
         containsSub "aloc".data (pyNormalizeCol c) = true ∨
         containsSub "alocacao".data (pyNormalizeCol c) = true) ∧
        containsSub "nd".data (pyNormalizeCol c) = false) ∧
    (∀ c, pass1Role exactFech kwFech cols = none →
      (detectPeriodColumns cols).2.2 = some c →
      c ∈ cols ∧
        (containsSub "periodo".data (pyNormalizeCol c) = true ∨
         containsSub "fech".data (pyNormalizeCol c) = true ∨
         containsSub "fechamento".data (pyNormalizeCol c) = true) ∧
        containsSub "nd".data (pyNormalizeCol c) = false) := by
  constructor
  · intro c h1 h2
    have hr : roleResult exactAloc kwAloc cond2Aloc cols = some c := h2
    rw [roleResult_of_pass1_none _ _ _ _ h1] at hr
    have hc := List.find?_some hr
    simp only [cond2Aloc, Bool.and_eq_true, Bool.or_eq_true, Bool.not_eq_true'] at hc
    obtain ⟨hor, hnd⟩ := hc
    refine ⟨List.mem_of_find?_eq_some hr, ?_, hnd⟩
    rcases hor with ((h | h) | h) | h
    · exact Or.inl h
    · exact Or.inr (Or.inl h)
    · exact Or.inr (Or.inr h)
    · rw [cedilla_never_in_normalized] at h
      exact absurd h (by simp)
  · intro c h1 h2
    have hr : roleResult exactFech kwFech cond2Fech cols = some c := h2
    rw [roleResult_of_pass1_none _ _ _ _ h1] at hr
    have hc := List.find?_some hr
    simp only [cond2Fech, Bool.and_eq_true, Bool.or_eq_true, Bool.not_eq_true'] at hc
    obtain ⟨hor, hnd⟩ := hc
    refine ⟨List.mem_of_find?_eq_some hr, ?_, hnd⟩
    rcases hor with (h | h) | h
    · exact Or.inl h
    · exact Or.inr (Or.inl h)
    · exact Or.inr (Or.inr h)

/-- C3 witness: instantiated at the single column `"Periodo Total"`, which
the fallback assigns to the Allocation role via its `"periodo"` substring. -/
theorem c3_fallback_role_condition_witness :
    "Periodo Total".data ∈ [("Periodo Total".data : Str)] ∧
    (containsSub "periodo".data (pyNormalizeCol "Periodo Total".data) = true ∨
     containsSub "aloc".data (pyNormalizeCol "Periodo Total".data) = true ∨
     containsSub "alocacao".data (pyNormalizeCol "Periodo Total".data) = true) ∧
    containsSub "nd".data (pyNormalizeCol "Periodo Total".data) = false :=
  (c3_fallback_role_condition ["Periodo Total".data]).1 "Periodo Total".data
    (by decide) (by decide)

/-- C7 counterexample: `"None"` is a genuine filter option for a series
containing the raw string `"None"` (it lands in the unresolved bucket), and
selecting it retains the row `"blah"` as well — whose converted value is
`None`, not a member of the selected set — because the filter compares
`astype(str)` of the formatted column, which renders unresolved cells as the
string `"None"`. -/
theorem c7_unresolved_membership_counterexample :
    orderedOptions pdNaT [.str "None".data, .str "blah".data] =
      ["None".data, "blah".data] ∧
    periodFilter pdNaT ["None".data] [.str "None".data, .str "blah".data] =
      [.str "None".data, .str "blah".data] ∧
    formatPeriod pdNaT (.str "blah".data) = none := by
  decide

/-- C7 amended: with a non-empty selection, a row is retained iff the
STRINGIFIED converted value — `formatPeriod` output with `None` rendered as
the string `"None"` — is a member of the selected set (so rows whose cell
resolves to a label behave as the original claim says, while unresolved rows
are retained exactly when the string `"None"` is selected); an empty
selection applies no constraint, on period columns and on every other
filterable column alike. -/
theorem c7_filter_semantics (p : Value → Option (Nat × Nat)) (valores : List Str)
    (rows : List Value) :
    (valores = [] → periodFilter p valores rows = rows) ∧
    (∀ r, r ∈ periodFilter p valores rows ↔
      r ∈ rows ∧ (valores = [] ∨ pyStrOpt (formatPeriod p r) ∈ valores)) ∧
    (∀ (vals2 rows2 : List Str), vals2 = [] → filterRows vals2 rows2 id = rows2) := by
  refine ⟨?_, ?_, ?_⟩
  · intro h
    simp [periodFilter, filterRows, h]
  · intro r
    by_cases h : valores = []
    · simp [periodFilter, filterRows, h]
    · simp only [periodFilter, filterRows, if_neg h, List.mem_filter, or_iff_right h,
        List.contains, List.elem_iff]
  · intro vals2 rows2 h
    simp [filterRows, h]

/-- C7 witness: the empty selection passes every row through. -/
theorem c7_filter_semantics_witness :
    periodFilter pdNaT [] [.str "blah".data] = [(.str "blah".data : Value)] :=
  (c7_filter_semantics pdNaT [] [.str "blah".data]).1 rfl

/-! ### Splitting and re-parsing produced labels -/

theorem digitCh_facts (d : Nat) (h : d ≤ 9) :
    isDig (digitCh d) = true ∧ dval (digitCh d) = d ∧ digitCh d ≠ '/' := by
  interval_cases d <;> exact ⟨rfl, rfl, by decide⟩

theorem slash_not_mem_mesesGet (m : Nat) (h1 : 1 ≤ m) (h2 : m ≤ 12) :
    '/' ∉ mesesGet m := by
  interval_cases m <;> decide

theorem splitSlash_no_slash : ∀ (xs : Str), '/' ∉ xs → splitSlashList xs = [xs] := by
  intro xs
  induction xs with
  | nil => intro _; rfl
  | cons c t ih =>
    intro h
    rw [splitSlashList, if_neg (by intro hc; exact h (hc ▸ List.mem_cons_self c t)),
      ih (fun ht => h (List.mem_cons_of_mem c ht))]

theorem splitSlash_append : ∀ (xs ys : Str), '/' ∉ xs →
    splitSlashList (xs ++ '/' :: ys) = xs :: splitSlashList ys := by
  intro xs
  induction xs with
  | nil =>
    intro ys _
    rw [List.nil_append, splitSlashList, if_pos rfl]
  | cons c t ih =>
    intro ys h
    rw [List.cons_append, splitSlashList,
      if_neg (by intro hc; exact h (hc ▸ List.mem_cons_self c t)),
      ih ys (fun ht => h (List.mem_cons_of_mem c ht))]

theorem splitSlash_canon (k m : Nat) (hk : k < 100) (h1 : 1 ≤ m) (h2 : m ≤ 12) :
    splitSlashList (canonLabel k m) =
      [mesesGet m, [digitCh (k / 10), digitCh (k % 10)]] := by
  rw [canonLabel, splitSlash_append _ _ (slash_not_mem_mesesGet m h1 h2),
    splitSlash_no_slash]
  intro hmem
  rcases List.mem_cons.mp hmem with h | h
  · exact (digitCh_facts (k / 10) (by omega)).2.2 h.symm
  · rw [List.mem_singleton] at h
    exact (digitCh_facts (k % 10) (by omega)).2.2 h.symm

theorem parseNat_pair (a b : Nat) (ha : a ≤ 9) (hb : b ≤ 9) :
    parseNatDigits [digitCh a, digitCh b] = some (10 * a + b) := by
  have hfa := digitCh_facts a ha
  have hfb := digitCh_facts b hb
  rw [parseNatDigits, if_pos]
  · rw [List.foldl_cons, List.foldl_cons, List.foldl_nil, hfa.2.1, hfb.2.1]
    norm_num
  · exact ⟨by simp, by simp [List.all_cons, hfa.1, hfb.1]⟩

theorem monthFromAbbrev_table (m : Nat) (h1 : 1 ≤ m) (h2 : m ≤ 12) :
    monthFromAbbrev (mesesGet m) = some m := by
  interval_cases m <;> decide

theorem mesesGet_inj_aux : ∀ a < 12, ∀ b < 12, mesesGet (a + 1) = mesesGet (b + 1) → a = b := by
  decide

theorem canonLabel_inj {k1 m1 k2 m2 : Nat} (hk1 : k1 < 100) (hm1 : 1 ≤ m1) (hm1' : m1 ≤ 12)
    (hk2 : k2 < 100) (hm2 : 1 ≤ m2) (hm2' : m2 ≤ 12)
    (h : canonLabel k1 m1 = canonLabel k2 m2) : k1 = k2 ∧ m1 = m2 := by
  have hs : splitSlashList (canonLabel k1 m1) = splitSlashList (canonLabel k2 m2) := by rw [h]
  rw [splitSlash_canon k1 m1 hk1 hm1 hm1', splitSlash_canon k2 m2 hk2 hm2 hm2'] at hs
  injection hs with h1 hs
  injection hs with h2 _
  injection h2 with ha h2
  injection h2 with hb _
  have hm : m1 = m2 := by
    have e1 : m1 - 1 + 1 = m1 := by omega
    have e2 : m2 - 1 + 1 = m2 := by omega
    have := mesesGet_inj_aux (m1 - 1) (by omega) (m2 - 1) (by omega)
      (by rw [e1, e2]; exact h1)
    omega
  have hdiv : k1 / 10 = k2 / 10 := by
    have e1 := (digitCh_facts (k1 / 10) (by omega)).2.1
    have e2 := (digitCh_facts (k2 / 10) (by omega)).2.1
    rw [← e1, ← e2, ha]
  have hmod : k1 % 10 = k2 % 10 := by
    have e1 := (digitCh_facts (k1 % 10) (by omega)).2.1
    have e2 := (digitCh_facts (k2 % 10) (by omega)).2.1
    rw [← e1, ← e2, hb]
  exact ⟨by omega, hm⟩

/-! ### Branch equations for the option-builder loop -/

theorem addOther_mem (os : List Str) (s s' : Str) :
    s' ∈ addOther os s ↔ s' ∈ os ∨ s' = s := by
  unfold addOther
  split
  · rename_i hin
    constructor
    · exact Or.inl
    · rintro (h | rfl)
      · exact h
      · exact hin
  · simp

theorem addOther_nodup (os : List Str) (s : Str) (h : os.Nodup) :
    (addOther os s).Nodup := by
  unfold addOther
  split
  · exact h
  · rename_i hnin
    rw [List.nodup_append]
    exact ⟨h, List.nodup_singleton s, fun a ha hb => hnin (by
      rw [List.mem_singleton] at hb
      exact hb ▸ ha)⟩

theorem canonT_not_unres (t : Nat × Nat × Str) (h : canonT t) : ¬ unresStr t.2.2 := by
  obtain ⟨h1, h2, h3, h4, h5⟩ := h
  intro hu
  have hext := extractYM_canonLabel (k := t.1 % 100) (m := t.2.1)
    (Nat.mod_lt _ (by omega)) h3 h4
  have := hu (2000 + t.1 % 100) t.2.1 (by rw [h5]; exact hext)
  omega

theorem optStep_some (p : Value → Option (Nat × Nat))
    (acc : List (Nat × Nat × Str) × List Str) (v : Value) (k m : Nat)
    (hk : k < 100) (hm1 : 1 ≤ m) (hm2 : m ≤ 12)
    (hf : formatPeriod p v = some (canonLabel k m)) :
    optStep p acc v = (acc.1 ++ [(2000 + k, m, canonLabel k m)], acc.2) := by
  have hkk : 10 * (k / 10) + k % 10 = k := by omega
  unfold optStep
  simp only [hf, splitSlash_canon k m hk hm1 hm2, monthFromAbbrev_table m hm1 hm2,
    parseNat_pair (k / 10) (k % 10) (by omega) (by omega), Option.map_some',
    List.length_cons, List.length_nil, hkk, if_true]
  rw [if_neg (by omega)]

theorem optStep_none_resolved (p : Value → Option (Nat × Nat))
    (acc : List (Nat × Nat × Str) × List Str) (v : Value) (y m : Nat)
    (hf : formatPeriod p v = none) (hext : extractYM (pyStr v) = (some y, some m))
    (hnz : ¬(y = 0 ∨ m = 0)) :
    optStep p acc v = (acc.1 ++ [(y, m, mkLabel y m)], acc.2) := by
  unfold optStep
  simp only [hf, hext]
  rw [if_neg hnz]

theorem optStep_none_others (p : Value → Option (Nat × Nat))
    (acc : List (Nat × Nat × Str) × List Str) (v : Value)
    (hf : formatPeriod p v = none)
    (h : ∀ y m, extractYM (pyStr v) = (some y, some m) → y = 0 ∨ m = 0)
    (hv : ¬ v = .null) :
    optStep p acc v = (acc.1, addOther acc.2 (pyStr v)) := by
  unfold optStep
  rcases hext : extractYM (pyStr v) with ⟨yo, mo⟩
  cases yo with
  | none => cases mo <;> (simp only [hf, hext]; rw [if_neg hv])
  | some y =>
    cases mo with
    | none => simp only [hf, hext]; rw [if_neg hv]
    | some m =>
      simp only [hf, hext]
      rw [if_pos (h y m hext), if_neg hv]

theorem optStep_none_skip (p : Value → Option (Nat × Nat))
    (acc : List (Nat × Nat × Str) × List Str) (v : Value)
    (hf : formatPeriod p v = none)
    (h : ∀ y m, extractYM (pyStr v) = (some y, some m) → y = 0 ∨ m = 0)
    (hv : v = .null) :
    optStep p acc v = acc := by
  unfold optStep
  rcases hext : extractYM (pyStr v) with ⟨yo, mo⟩
  cases yo with
  | none => cases mo <;> (simp only [hf, hext]; rw [if_pos hv])
  | some y =>
    cases mo with
    | none => simp only [hf, hext]; rw [if_pos hv]
    | some m =>
      simp only [hf, hext]
      rw [if_pos (h y m hext), if_pos hv]

/-! ### The loop invariant of the option builder -/

theorem optStep_pres (p : Value → Option (Nat × Nat))
    (hp : ∀ v y m, p v = some (y, m) → 1 ≤ m ∧ m ≤ 12 ∧ 1677 ≤ y ∧ y ≤ 2262)
    (acc : List (Nat × Nat × Str) × List Str) (v : Value)
    (h1 : ∀ t ∈ acc.1, canonT t) (h2 : ∀ s ∈ acc.2, unresStr s) (h3 : acc.2.Nodup) :
    (∀ t ∈ (optStep p acc v).1, canonT t) ∧ (∀ s ∈ (optStep p acc v).2, unresStr s) ∧
      (optStep p acc v).2.Nodup := by
  cases hf : formatPeriod p v with
  | some lbl =>
    obtain ⟨k, m, hk, hm1, hm2, rfl⟩ := formatPeriod_some p hp v lbl hf
    rw [optStep_some p acc v k m hk hm1 hm2 hf]
    refine ⟨?_, h2, h3⟩
    intro t ht
    rcases List.mem_append.mp ht with ht | ht
    · exact h1 t ht
    · rw [List.mem_singleton] at ht
      subst ht
      have hmod : (2000 + k) % 100 = k := by omega
      exact ⟨by omega, by omega, hm1, hm2, by rw [hmod]⟩
  | none =>
    by_cases hres : ∃ y m, extractYM (pyStr v) = (some y, some m) ∧ ¬(y = 0 ∨ m = 0)
    · obtain ⟨y, m, hext, hnz⟩ := hres
      rw [optStep_none_resolved p acc v y m hf hext hnz]
      refine ⟨?_, h2, h3⟩
      intro t ht
      rcases List.mem_append.mp ht with ht | ht
      · exact h1 t ht
      · rw [List.mem_singleton] at ht
        subst ht
        have hy := extractYM_year_range _ _ _ hext
        have hm := extractYM_month_range _ _ _ hext
        exact ⟨hy.1, hy.2, hm.1, hm.2, mkLabel_eq_canon _ (by omega)⟩
    · push_neg at hres
      have hun : ∀ y m, extractYM (pyStr v) = (some y, some m) → y = 0 ∨ m = 0 := hres
      by_cases hv : v = .null
      · rw [optStep_none_skip p acc v hf hun hv]
        exact ⟨h1, h2, h3⟩
      · rw [optStep_none_others p acc v hf hun hv]
        refine ⟨h1, ?_, addOther_nodup _ _ h3⟩
        intro s hs
        rcases (addOther_mem _ _ _).mp hs with hs | rfl
        · exact h2 s hs
        · exact hun

theorem foldl_optStep_inv (p : Value → Option (Nat × Nat))
    (hp : ∀ v y m, p v = some (y, m) → 1 ≤ m ∧ m ≤ 12 ∧ 1677 ≤ y ∧ y ≤ 2262) :
    ∀ (vs : List Value) (acc : List (Nat × Nat × Str) × List Str),
      (∀ t ∈ acc.1, canonT t) → (∀ s ∈ acc.2, unresStr s) → acc.2.Nodup →
      (∀ t ∈ (vs.foldl (optStep p) acc).1, canonT t) ∧
        (∀ s ∈ (vs.foldl (optStep p) acc).2, unresStr s) ∧
        (vs.foldl (optStep p) acc).2.Nodup := by
  intro vs
  induction vs with
  | nil => exact fun acc h1 h2 h3 => ⟨h1, h2, h3⟩
  | cons v rest ih =>
    intro acc h1 h2 h3
    rw [List.foldl_cons]
    obtain ⟨g1, g2, g3⟩ := optStep_pres p hp acc v h1 h2 h3
    exact ih (optStep p acc v) g1 g2 g3

/-! ### Provenance of the two buckets -/

theorem optStep_cases (p : Value → Option (Nat × Nat))
    (hp : ∀ v y m, p v = some (y, m) → 1 ≤ m ∧ m ≤ 12 ∧ 1677 ≤ y ∧ y ≤ 2262)
    (acc : List (Nat × Nat × Str) × List Str) (v : Value) :
    (∃ k m, k < 100 ∧ 1 ≤ m ∧ m ≤ 12 ∧ formatPeriod p v = some (canonLabel k m) ∧
      optStep p acc v = (acc.1 ++ [(2000 + k, m, canonLabel k m)], acc.2)) ∨
    (∃ y m, formatPeriod p v = none ∧ extractYM (pyStr v) = (some y, some m) ∧
      ¬(y = 0 ∨ m = 0) ∧ optStep p acc v = (acc.1 ++ [(y, m, mkLabel y m)], acc.2)) ∨
    (formatPeriod p v = none ∧ v ≠ Value.null ∧
      optStep p acc v = (acc.1, addOther acc.2 (pyStr v))) ∨
    (formatPeriod p v = none ∧ v = Value.null ∧ optStep p acc v = acc) := by
  cases hf : formatPeriod p v with
  | some lbl =>
    obtain ⟨k, m, hk, hm1, hm2, rfl⟩ := formatPeriod_some p hp v lbl hf
    exact Or.inl ⟨k, m, hk, hm1, hm2, rfl, optStep_some p acc v k m hk hm1 hm2 hf⟩
  | none =>
    by_cases hres : ∃ y m, extractYM (pyStr v) = (some y, some m) ∧ ¬(y = 0 ∨ m = 0)
    · obtain ⟨y, m, hext, hnz⟩ := hres
      exact Or.inr (Or.inl ⟨y, m, rfl, hext, hnz,
        optStep_none_resolved p acc v y m hf hext hnz⟩)
    · push_neg at hres
      by_cases hv : v = Value.null
      · exact Or.inr (Or.inr (Or.inr ⟨rfl, hv, optStep_none_skip p acc v hf hres hv⟩))
      · exact Or.inr (Or.inr (Or.inl ⟨rfl, hv, optStep_none_others p acc v hf hres hv⟩))

theorem foldl_snd_src (p : Value → Option (Nat × Nat))
    (hp : ∀ v y m, p v = some (y, m) → 1 ≤ m ∧ m ≤ 12 ∧ 1677 ≤ y ∧ y ≤ 2262) :
    ∀ (vs : List Value) (acc : List (Nat × Nat × Str) × List Str),
      ∀ s ∈ (vs.foldl (optStep p) acc).2,
        s ∈ acc.2 ∨
          ∃ v ∈ vs, v ≠ Value.null ∧ formatPeriod p v = none ∧ s = pyStr v := by
  intro vs
  induction vs with
  | nil => exact fun acc s hs => Or.inl hs
  | cons u rest ih =>
    intro acc s hs
    rw [List.foldl_cons] at hs
    rcases ih (optStep p acc u) s hs with h | ⟨v, hv, h⟩
    · rcases optStep_cases p hp acc u with
        ⟨k, m, _, _, _, _, heq⟩ | ⟨y, m, _, _, _, heq⟩ | ⟨hf, hnul, heq⟩ | ⟨_, _, heq⟩
      · rw [heq] at h
        exact Or.inl h
      · rw [heq] at h
        exact Or.inl h
      · rw [heq] at h
        rcases (addOther_mem _ _ _).mp h with h | rfl
        · exact Or.inl h
        · exact Or.inr ⟨u, List.mem_cons_self u rest, hnul, hf, rfl⟩
      · rw [heq] at h
        exact Or.inl h
    · exact Or.inr ⟨v, List.mem_cons_of_mem _ hv, h⟩

theorem foldl_fst_src (p : Value → Option (Nat × Nat))
    (hp : ∀ v y m, p v = some (y, m) → 1 ≤ m ∧ m ≤ 12 ∧ 1677 ≤ y ∧ y ≤ 2262) :
    ∀ (vs : List Value) (acc : List (Nat × Nat × Str) × List Str),
      ∀ t ∈ (vs.foldl (optStep p) acc).1,
        t ∈ acc.1 ∨
          ∃ v ∈ vs,
            formatPeriod p v = some t.2.2 ∨
              (formatPeriod p v = none ∧ extractYM (pyStr v) = (some t.1, some t.2.1) ∧
                t.2.2 = mkLabel t.1 t.2.1) := by
  intro vs
  induction vs with
  | nil => exact fun acc t ht => Or.inl ht
  | cons u rest ih =>
    intro acc t ht
    rw [List.foldl_cons] at ht
    rcases ih (optStep p acc u) t ht with h | ⟨v, hv, h⟩
    · rcases optStep_cases p hp acc u with
        ⟨k, m, _, _, _, hfu, heq⟩ | ⟨y, m, hfu, hext, _, heq⟩ | ⟨_, _, heq⟩ | ⟨_, _, heq⟩
      · rw [heq] at h
        rcases List.mem_append.mp h with h | h
        · exact Or.inl h
        · rw [List.mem_singleton] at h
          subst h
          exact Or.inr ⟨u, List.mem_cons_self u rest, Or.inl hfu⟩
      · rw [heq] at h
        rcases List.mem_append.mp h with h | h
        · exact Or.inl h
        · rw [List.mem_singleton] at h
          subst h
          exact Or.inr ⟨u, List.mem_cons_self u rest, Or.inr ⟨hfu, hext, rfl⟩⟩
      · rw [heq] at h
        exact Or.inl h
      · rw [heq] at h
        exact Or.inl h
    · exact Or.inr ⟨v, List.mem_cons_of_mem _ hv, h⟩

theorem foldl_fst_mono (p : Value → Option (Nat × Nat))
    (hp : ∀ v y m, p v = some (y, m) → 1 ≤ m ∧ m ≤ 12 ∧ 1677 ≤ y ∧ y ≤ 2262) :
    ∀ (vs : List Value) (acc : List (Nat × Nat × Str) × List Str),
      ∀ t ∈ acc.1, t ∈ (vs.foldl (optStep p) acc).1 := by
  intro vs
  induction vs with
  | nil => exact fun acc t ht => ht
  | cons u rest ih =>
    intro acc t ht
    rw [List.foldl_cons]
    apply ih
    rcases optStep_cases p hp acc u with
      ⟨k, m, _, _, _, _, heq⟩ | ⟨y, m, _, _, _, heq⟩ | ⟨_, _, heq⟩ | ⟨_, _, heq⟩
    · rw [heq]
      exact List.mem_append_left _ ht
    · rw [heq]
      exact List.mem_append_left _ ht
    · rw [heq]
      exact ht
    · rw [heq]
      exact ht

theorem foldl_resolved_mem (p : Value → Option (Nat × Nat))
    (hp : ∀ v y m, p v = some (y, m) → 1 ≤ m ∧ m ≤ 12 ∧ 1677 ≤ y ∧ y ≤ 2262) :
    ∀ (vs : List Value) (acc : List (Nat × Nat × Str) × List Str) (v : Value), v ∈ vs →
      ∀ l, formatPeriod p v = some l →
        ∃ t ∈ (vs.foldl (optStep p) acc).1, t.2.2 = l := by
  intro vs
  induction vs with
  | nil => intro acc v hv; simp at hv
  | cons u rest ih =>
    intro acc v hv l hf
    rw [List.foldl_cons]
    rcases List.mem_cons.mp hv with rfl | hv
    · rcases optStep_cases p hp acc v with
        ⟨k, m, _, _, _, hfu, heq⟩ | ⟨y, m, hfu, _, _, _⟩ | ⟨hfu, _, _⟩ | ⟨hfu, _, _⟩
      · rw [hf] at hfu
        injection hfu with hfu
        refine ⟨(2000 + k, m, canonLabel k m), ?_, hfu.symm⟩
        apply foldl_fst_mono p hp rest (optStep p acc v)
        rw [heq]
        exact List.mem_append_right _ (List.mem_singleton.mpr rfl)
      · rw [hf] at hfu
        exact absurd hfu (by simp)
      · rw [hf] at hfu
        exact absurd hfu (by simp)
      · rw [hf] at hfu
        exact absurd hfu (by simp)
    · exact ih (optStep p acc u) v hv l hf

/-! ### The orderings used by `sorted` -/

instance : IsTotal (Nat × Nat × Str) keyLE :=
  ⟨fun a b => by unfold keyLE; omega⟩

instance : IsTrans (Nat × Nat × Str) keyLE :=
  ⟨fun a b c hab hbc => by unfold keyLE at *; omega⟩

theorem strLeB_nil (b : Str) : strLeB [] b = true := rfl

theorem strLeB_cons_iff (x y : Char) (xs ys : Str) :
    strLeB (x :: xs) (y :: ys) = true ↔
      x.toNat < y.toNat ∨ (x = y ∧ strLeB xs ys = true) := by
  rw [strLeB]
  by_cases h1 : x.toNat < y.toNat
  · simp [h1]
  · by_cases h2 : x = y
    · simp [h1, h2]
    · simp [h1, h2]

theorem char_toNat_inj {a b : Char} (h : a.toNat = b.toNat) : a = b := by
  apply Char.ext
  exact UInt32.toNat.inj h

theorem strLeB_total : ∀ a b : Str, strLeB a b = true ∨ strLeB b a = true := by
  intro a
  induction a with
  | nil => intro b; exact Or.inl (strLeB_nil b)
  | cons x xs ih =>
    intro b
    cases b with
    | nil => exact Or.inr (strLeB_nil _)
    | cons y ys =>
      rcases Nat.lt_trichotomy x.toNat y.toNat with h | h | h
      · exact Or.inl ((strLeB_cons_iff x y xs ys).mpr (Or.inl h))
      · have hxy : x = y := char_toNat_inj h
        rcases ih ys with hh | hh
        · exact Or.inl ((strLeB_cons_iff x y xs ys).mpr (Or.inr ⟨hxy, hh⟩))
        · exact Or.inr ((strLeB_cons_iff y x ys xs).mpr (Or.inr ⟨hxy.symm, hh⟩))
      · exact Or.inr ((strLeB_cons_iff y x ys xs).mpr (Or.inl h))

theorem strLeB_trans : ∀ a b c : Str,
    strLeB a b = true → strLeB b c = true → strLeB a c = true := by
  intro a
  induction a with
  | nil => intro b c _ _; exact strLeB_nil c
  | cons x xs ih =>
    intro b c hab hbc
    cases b with
    | nil => simp [strLeB] at hab
    | cons y ys =>
      cases c with
      | nil => simp [strLeB] at hbc
      | cons z zs =>
        rcases (strLeB_cons_iff x y xs ys).mp hab with h1 | ⟨rfl, h1⟩
        · rcases (strLeB_cons_iff y z ys zs).mp hbc with h2 | ⟨rfl, h2⟩
          · exact (strLeB_cons_iff x z xs zs).mpr (Or.inl (Nat.lt_trans h1 h2))
          · exact (strLeB_cons_iff x _ xs zs).mpr (Or.inl h1)
        · rcases (strLeB_cons_iff x z ys zs).mp hbc with h2 | ⟨rfl, h2⟩
          · exact (strLeB_cons_iff x z xs zs).mpr (Or.inl h2)
          · exact (strLeB_cons_iff x x xs zs).mpr (Or.inr ⟨rfl, ih ys zs h1 h2⟩)

instance : IsTotal Str strLE := ⟨strLeB_total⟩

instance : IsTrans Str strLE := ⟨strLeB_trans⟩

/-- C6: for every date-parse oracle within `pd.Timestamp` bounds and every
input series, `ordered_options` returns a list with no duplicate entries that
decomposes as a resolved prefix followed by the unresolved bucket, and the
two buckets are pinned down by their conjuncts: the prefix is the labels of
triples strictly ascending in `(year, month)`, each the canonical label of a
year 2000–2099 and month 1–12, each arising from an input cell (either its
converted label or the re-extraction of its string form), and every input
cell that converts to a label has that label in the prefix; the suffix
entries come after every resolved label, are sorted lexicographically (by
code point, Python's string order), and each of them is the string form of a
non-null input cell that failed conversion and yields no usable
`(year, month)` on re-extraction — so no resolved label can sit in the
suffix and no unresolved string can sit in the prefix. -/
theorem c6_ordered_options_invariants (p : Value → Option (Nat × Nat))
    (hp : ∀ v y m, p v = some (y, m) → 1 ≤ m ∧ m ≤ 12 ∧ 1677 ≤ y ∧ y ≤ 2262)
    (vs : List Value) :
    ∃ (ts : List (Nat × Nat × Str)) (os : List Str),
      orderedOptions p vs = ts.map (fun t => t.2.2) ++ os ∧
      (orderedOptions p vs).Nodup ∧
      ts.Pairwise (fun a b => a.1 < b.1 ∨ (a.1 = b.1 ∧ a.2.1 < b.2.1)) ∧
      (∀ t ∈ ts, 2000 ≤ t.1 ∧ t.1 ≤ 2099 ∧ 1 ≤ t.2.1 ∧ t.2.1 ≤ 12 ∧
        t.2.2 = canonLabel (t.1 % 100) t.2.1) ∧
      (∀ t ∈ ts, ∃ v ∈ vs,
        formatPeriod p v = some t.2.2 ∨
          (formatPeriod p v = none ∧ extractYM (pyStr v) = (some t.1, some t.2.1) ∧
            t.2.2 = mkLabel t.1 t.2.1)) ∧
      (∀ v ∈ vs, ∀ l, formatPeriod p v = some l → l ∈ ts.map (fun t => t.2.2)) ∧
      os.Pairwise strLE ∧
      (∀ s ∈ os, ∀ y m, extractYM s = (some y, some m) → y = 0 ∨ m = 0) ∧
      (∀ s ∈ os, ∃ v ∈ vs, v ≠ Value.null ∧ formatPeriod p v = none ∧ s = pyStr v) := by
  obtain ⟨hT, hO, hN⟩ := foldl_optStep_inv p hp vs ([], []) (by simp) (by simp) (by simp)
  have hperm := List.perm_insertionSort keyLE (vs.foldl (optStep p) ([], [])).1.dedup
  have hsorted := List.sorted_insertionSort keyLE (vs.foldl (optStep p) ([], [])).1.dedup
  have hst_nodup :
      (List.insertionSort keyLE (vs.foldl (optStep p) ([], [])).1.dedup).Nodup :=
    hperm.nodup_iff.mpr (List.nodup_dedup _)
  have hts_mem :
      ∀ t ∈ List.insertionSort keyLE (vs.foldl (optStep p) ([], [])).1.dedup,
        t ∈ (vs.foldl (optStep p) ([], [])).1 :=
    fun t ht => List.mem_dedup.mp (hperm.mem_iff.mp ht)
  have hst_canon :
      ∀ t ∈ List.insertionSort keyLE (vs.foldl (optStep p) ([], [])).1.dedup, canonT t :=
    fun t ht => hT t (hts_mem t ht)
  have hos_mem :
      ∀ s ∈ (if (vs.foldl (optStep p) ([], [])).2 = [] then []
          else List.insertionSort strLE (vs.foldl (optStep p) ([], [])).2),
        s ∈ (vs.foldl (optStep p) ([], [])).2 := by
    intro s hs
    by_cases hOs : (vs.foldl (optStep p) ([], [])).2 = []
    · rw [if_pos hOs] at hs
      simp at hs
    · rw [if_neg hOs] at hs
      exact (List.perm_insertionSort strLE _).mem_iff.mp hs
  have htriple_eq : ∀ {a b : Nat × Nat × Str}, canonT a → canonT b →
      a.1 = b.1 → a.2.1 = b.2.1 → a = b := by
    intro a b ca cb h1 h2
    have h3 : a.2.2 = b.2.2 := by rw [ca.2.2.2.2, cb.2.2.2.2, h1, h2]
    exact Prod.ext_iff.mpr ⟨h1, Prod.ext_iff.mpr ⟨h2, h3⟩⟩
  have hlabel_inj : ∀ {a b : Nat × Nat × Str}, canonT a → canonT b →
      a.2.2 = b.2.2 → a = b := by
    intro a b ca cb hl
    have h := hl
    rw [ca.2.2.2.2, cb.2.2.2.2] at h
    obtain ⟨hk, hm⟩ := canonLabel_inj (Nat.mod_lt _ (by omega)) ca.2.2.1 ca.2.2.2.1
      (Nat.mod_lt _ (by omega)) cb.2.2.1 cb.2.2.2.1 h
    have c1 := ca.1; have c2 := ca.2.1; have d1 := cb.1; have d2 := cb.2.1
    exact htriple_eq ca cb (by omega) hm
  have hmap_nodup :
      ((List.insertionSort keyLE (vs.foldl (optStep p) ([], [])).1.dedup).map
        (fun t => t.2.2)).Nodup :=
    hst_nodup.map_on (fun x hx y hy hxy => hlabel_inj (hst_canon x hx) (hst_canon y hy) hxy)
  refine ⟨List.insertionSort keyLE (vs.foldl (optStep p) ([], [])).1.dedup,
    (if (vs.foldl (optStep p) ([], [])).2 = [] then []
      else List.insertionSort strLE (vs.foldl (optStep p) ([], [])).2),
    rfl, ?_, ?_, ?_, ?_, ?_, ?_, ?_, ?_⟩
  · show ((List.insertionSort keyLE (vs.foldl (optStep p) ([], [])).1.dedup).map
        (fun t => t.2.2) ++
      (if (vs.foldl (optStep p) ([], [])).2 = [] then []
        else List.insertionSort strLE (vs.foldl (optStep p) ([], [])).2)).Nodup
    rw [List.nodup_append]
    refine ⟨hmap_nodup, ?_, ?_⟩
    · by_cases hOs : (vs.foldl (optStep p) ([], [])).2 = []
      · rw [if_pos hOs]
        exact List.nodup_nil
      · rw [if_neg hOs]
        exact (List.perm_insertionSort strLE _).nodup_iff.mpr hN
    · intro a ha hb
      rw [List.mem_map] at ha
      obtain ⟨t, ht, rfl⟩ := ha
      exact canonT_not_unres t (hst_canon t ht) (hO _ (hos_mem _ hb))
  · refine (hsorted.and hst_nodup).imp_of_mem ?_
    intro a b ha hb hab
    obtain ⟨hle, hne⟩ := hab
    have ca := hst_canon a ha
    have cb := hst_canon b hb
    rcases hle with h | ⟨h1, h2⟩
    · exact Or.inl h
    · rcases Nat.lt_or_ge b.2.1 a.2.1 with h3 | h3
      · omega
      · rcases Nat.lt_or_eq_of_le (by omega : a.2.1 ≤ b.2.1) with h4 | h4
        · exact Or.inr ⟨h1, h4⟩
        · exact absurd (htriple_eq ca cb h1 h4) hne
  · exact fun t ht => hst_canon t ht
  · intro t ht
    rcases foldl_fst_src p hp vs ([], []) t (hts_mem t ht) with h | ⟨v, hv, h⟩
    · simp at h
    · exact ⟨v, hv, h⟩
  · intro v hv l hf
    obtain ⟨t, htmem, ht2⟩ := foldl_resolved_mem p hp vs ([], []) v hv l hf
    rw [← ht2]
    exact List.mem_map_of_mem _ (hperm.mem_iff.mpr (List.mem_dedup.mpr htmem))
  · by_cases hOs : (vs.foldl (optStep p) ([], [])).2 = []
    · rw [if_pos hOs]
      exact List.Pairwise.nil
    · rw [if_neg hOs]
      exact List.sorted_insertionSort strLE _
  · exact fun s hs y m he => hO s (hos_mem s hs) y m he
  · intro s hs
    rcases foldl_snd_src p hp vs ([], []) s (hos_mem s hs) with h | ⟨v, hv, h⟩
    · simp at h
    · exact ⟨v, hv, h⟩

/-- C6 witness: the spec's Example 6 input
`["Set/25", "Set/25", "Out/24", "xyz"]` with the `NaT` oracle. -/
theorem c6_ordered_options_invariants_witness :
    ∃ (ts : List (Nat × Nat × Str)) (os : List Str),
      orderedOptions pdNaT
          [.str "Set/25".data, .str "Set/25".data, .str "Out/24".data, .str "xyz".data] =
        ts.map (fun t => t.2.2) ++ os ∧
      (orderedOptions pdNaT
          [.str "Set/25".data, .str "Set/25".data, .str "Out/24".data,
           .str "xyz".data]).Nodup ∧
      ts.Pairwise (fun a b => a.1 < b.1 ∨ (a.1 = b.1 ∧ a.2.1 < b.2.1)) ∧
      (∀ t ∈ ts, 2000 ≤ t.1 ∧ t.1 ≤ 2099 ∧ 1 ≤ t.2.1 ∧ t.2.1 ≤ 12 ∧
        t.2.2 = canonLabel (t.1 % 100) t.2.1) ∧
      (∀ t ∈ ts, ∃ v ∈ [Value.str "Set/25".data, Value.str "Set/25".data,
          Value.str "Out/24".data, Value.str "xyz".data],
        formatPeriod pdNaT v = some t.2.2 ∨
          (formatPeriod pdNaT v = none ∧
            extractYM (pyStr v) = (some t.1, some t.2.1) ∧
            t.2.2 = mkLabel t.1 t.2.1)) ∧
      (∀ v ∈ [Value.str "Set/25".data, Value.str "Set/25".data,
          Value.str "Out/24".data, Value.str "xyz".data],
        ∀ l, formatPeriod pdNaT v = some l → l ∈ ts.map (fun t => t.2.2)) ∧
      os.Pairwise strLE ∧
      (∀ s ∈ os, ∀ y m, extractYM s = (some y, some m) → y = 0 ∨ m = 0) ∧
      (∀ s ∈ os, ∃ v ∈ [Value.str "Set/25".data, Value.str "Set/25".data,
          Value.str "Out/24".data, Value.str "xyz".data],
        v ≠ Value.null ∧ formatPeriod pdNaT v = none ∧ s = pyStr v) :=
  c6_ordered_options_invariants pdNaT (fun v y m h => by simp [pdNaT] at h)
    [.str "Set/25".data, .str "Set/25".data, .str "Out/24".data, .str "xyz".data]

